import Mathlib

/-!
Verification of the starttls-scanner persistence layer and utility helpers.

The development shallowly embeds the program: `util.go` (domain-name syntax
validation and the composite-error environment helpers) is translated
directly from its source; the storage layer (`db` package) is present in the
repository only through its test file `db/sqldb_test.go`, so its operations
are modelled from the specification (and the behaviour its tests demand),
as indicated by the doc comments below.
-/

set_option autoImplicit false

namespace StarttlsScanner

/-! ### util.go: domain-name validation -/

/-- Character class `[a-zA-Z0-9_]` of the `matchDNS` regular expression in
util.go: the characters allowed as the first character of a DNS label. -/
def isLabelStartChar (c : Char) : Bool :=
  c.isAlpha || c.isDigit || c == '_'

/-- Character class `[a-zA-Z0-9_-]` of the `matchDNS` regular expression in
util.go: the characters allowed after the first character of a DNS label. -/
def isLabelChar (c : Char) : Bool :=
  isLabelStartChar c || c == '-'

/-- One label group of the anchored `matchDNS` regular expression
`[a-zA-Z0-9_]{1}[a-zA-Z0-9_-]{0,62}`: one start character followed by at
most 62 further label characters. -/
def isLabel (l : List Char) : Bool :=
  match l with
  | [] => false
  | c :: rest => isLabelStartChar c && decide (rest.length ≤ 62) && rest.all isLabelChar

/-- Splitting a character sequence at every dot; the pieces keep their
order and dots are dropped, so `splitDots` of the empty sequence is one
empty piece and a leading, trailing or doubled dot yields an empty
piece. -/
def splitDots (l : List Char) : List (List Char) :=
  match l with
  | [] => [[]]
  | c :: rest =>
    if c = '.' then [] :: splitDots rest
    else (splitDots rest).modifyHead (fun piece => c :: piece)

/-- The anchored regular expression
`^([a-zA-Z0-9_]{1}[a-zA-Z0-9_-]{0,62}){1}(\.[a-zA-Z0-9_]{1}[a-zA-Z0-9_-]{0,62})*$`
from util.go: the whole string is a nonempty dot-separated sequence of label
groups, i.e. splitting at the dots yields valid labels throughout. -/
def matchDNS (s : String) : Bool :=
  (splitDots s.data).all isLabel

/-- util.go `validDomainName`: rejects the empty string and strings without
a dot, otherwise matches against the `matchDNS` regular expression. -/
def validDomainName (s : String) : Bool :=
  if s.data.length < 1 || !(s.data.contains '.') then false
  else matchDNS s

/-! ### util.go: composite errors and environment loading -/

/-- util.go `Errors`: a composite of multiple errors, modelled as the list
of the contained errors' messages. -/
abbrev Errors := List String

/-- util.go `Errors.Add`: appends a non-nil error (a nil Go error is
modelled as `none`). -/
def Errors.add (e : Errors) (err : Option String) : Errors :=
  match err with
  | some m => e ++ [m]
  | none => e

/-- util.go `Errors.Error`: with exactly one contained error its message is
returned alone; otherwise the messages are appended line by line after the
heading "multiple errors:". -/
def Errors.errorString (e : Errors) : String :=
  match e with
  | [m] => m
  | _ => e.foldl (fun msg m => msg ++ "\n" ++ m) "multiple errors:"

/-- Model of Go `os.Getenv`: an environment maps a variable name to an
optional value, and `Getenv` returns the empty string for an unset
variable. -/
def getenv (env : String → Option String) (v : String) : String :=
  (env v).getD ""

/-- The message `requireEnv` in util.go formats for a missing variable. -/
def missingMsg (v : String) : String :=
  "expected environment variable " ++ v ++ " to be set"

/-- util.go `requireEnv`: reads the variable, appends a missing-variable
error to the composite when the value has length zero, and returns the
value in every case. The Go function mutates the composite through a
pointer; the model returns the updated composite alongside the value. -/
def requireEnv (varName : String) (env : String → Option String) (errs : Errors) :
    String × Errors :=
  let envVar := getenv env varName
  if envVar.length = 0 then
    (envVar, errs.add (some (missingMsg varName)))
  else
    (envVar, errs)

/-- Modelled from the spec: `LoadEnvironmentVariables`, the environment
loader, is not among the sources (only util.go's `requireEnv` and `Errors`
are). Per the spec it calls `requireEnv` once for each required variable,
threading one shared `Errors` composite that starts empty. -/
def loadEnv (vars : List String) (env : String → Option String) : Errors :=
  vars.foldl (fun errs v => (requireEnv v env errs).2) []

/-! ### The db package (modelled from the spec)

The implementation file `db/sqldb.go` is absent from the sources; only its
test file `db/sqldb_test.go` is present. The store operations below are
therefore modelled from the specification's component design (§3, §4) and
from the behaviour the tests demand, with the database state made explicit.
-/

/-- Modelled from the spec: db `ScanData` — {domain, opaque result payload,
timestamp}. The payload (`checker.DomainResult` in the tests) is opaque to
the store and modelled as a string; instants are modelled as naturals. -/
structure ScanData where
  domain : String
  data : String
  timestamp : Nat
deriving Repr, DecidableEq

/-- Modelled from the spec: the domain workflow state enum
{Unvalidated, Queued, Validated}; `unvalidated` is the Go zero value, the
default for a record created with the state field left unset. -/
inductive DomainState where
  | unvalidated
  | queued
  | validated
deriving Repr, DecidableEq

/-- Modelled from the spec: db `DomainData` — {name (primary key), contact
email, workflow state}. A caller leaving a field unset passes the Go zero
value: the empty string for `email`, `unvalidated` for `state`. -/
structure DomainData where
  name : String
  email : String := ""
  state : DomainState := DomainState.unvalidated
deriving Repr, DecidableEq

/-- Modelled from the spec: db `TokenData` — {token (opaque random string,
primary key), domain, expiration, used}. The opaque random token value is
modelled as a natural drawn from a counter in the database state, which
models the real generator's freshness (no collision with any earlier
token). -/
structure TokenData where
  token : Nat
  domain : String
  expiration : Nat
  used : Bool
deriving Repr, DecidableEq

/-- Modelled from the spec: the expected, recoverable error kinds of the
store (§7). Storage/connectivity failures are outside the model. -/
inductive DBError where
  | notFound
  | invalidToken
deriving Repr, DecidableEq

/-- Modelled from the spec: the whole database state behind `SQLDatabase` —
the three tables `scans`, `domains`, `tokens` (§6), plus the token
freshness counter that models the random token generator. Rows are kept in
insertion order. -/
structure DBState where
  scans : List ScanData
  domains : List DomainData
  tokens : List TokenData
  nextToken : Nat
deriving Repr, DecidableEq

/-- Modelled from the spec: the state of a freshly initialised database —
all tables empty. -/
def initState : DBState :=
  { scans := [], domains := [], tokens := [], nextToken := 0 }

/-- Modelled from the spec: `ClearTables` truncates all three tables (test
isolation hook, §6). The freshness counter is no table content and is
kept. -/
def ClearTables (st : DBState) : DBState :=
  { st with scans := [], domains := [], tokens := [] }

/-- Modelled from the spec: `PutScan` inserts a new scan record, appending
to the scan history with no deduplication (§4.1). -/
def PutScan (r : ScanData) (st : DBState) : DBState :=
  { st with scans := st.scans ++ [r] }

/-- Modelled from the spec: the record with the maximum timestamp among the
given rows; on equal timestamps the later-inserted row wins, the
deterministic tie-break of §4.1 (highest internal insertion id). -/
def latestOf (rows : List ScanData) : Option ScanData :=
  rows.foldl
    (fun acc r =>
      match acc with
      | none => some r
      | some b => if b.timestamp ≤ r.timestamp then some r else some b)
    none

/-- Modelled from the spec: `GetLatestScan` returns the scan record with
the maximum timestamp for the domain and fails with NotFound when the
domain has no scan records (§4.1). -/
def GetLatestScan (d : String) (st : DBState) : Except DBError ScanData :=
  match latestOf (st.scans.filter (fun r => r.domain == d)) with
  | none => Except.error DBError.notFound
  | some r => Except.ok r

/-- Modelled from the spec: `GetAllScans` returns all scan records for the
domain ordered by timestamp ascending — an empty sequence, not an error,
when none exist (§4.1). The sort is stable, so rows with equal timestamps
keep insertion order, as `TestGetAllScans` demands. -/
def GetAllScans (d : String) (st : DBState) : Except DBError (List ScanData) :=
  Except.ok
    ((st.scans.filter (fun r => r.domain == d)).mergeSort
      (fun a b => decide (a.timestamp ≤ b.timestamp)))

/-- Modelled from the spec: the field-level merge `PutDomain` performs on an
existing row (§4.2, §9 merge-nonzero-fields): a zero-valued `email` in the
update keeps the stored address; the workflow state is taken from the
update, which is how the external callers drive the state machine. -/
def mergeDomain (old upd : DomainData) : DomainData :=
  { name := upd.name
    email := if upd.email = "" then old.email else upd.email
    state := upd.state }

/-- Modelled from the spec: `PutDomain` — an upsert keyed by the domain
name: creates the row when the name is new and otherwise merges into the
existing row in place, never inserting a second row for the same key
(§4.2). -/
def PutDomain (d : DomainData) (st : DBState) : DBState :=
  match st.domains.find? (fun row => row.name == d.name) with
  | none => { st with domains := st.domains ++ [d] }
  | some _ =>
    { st with
        domains := st.domains.map
          (fun row => if row.name == d.name then mergeDomain row d else row) }

/-- Modelled from the spec: `GetDomain` returns the current record for the
name and fails with NotFound when the domain was never registered
(§4.2). -/
def GetDomain (n : String) (st : DBState) : Except DBError DomainData :=
  match st.domains.find? (fun row => row.name == n) with
  | none => Except.error DBError.notFound
  | some row => Except.ok row

/-- Modelled from the spec: how far in the future a fresh token's
expiration lies (§4.3 stores the new token "with an expiration in the
future"; the concrete span is immaterial, any positive span works). -/
def tokenValidity : Nat := 259200

/-- Modelled from the spec: the token table keeps at most one row per
domain — issuing replaces the domain's row, discarding the old token value
entirely (§4.3 token supersession, simplest correct design). -/
def upsertToken (d : String) (tok : TokenData) (ts : List TokenData) : List TokenData :=
  if ts.any (fun row => row.domain == d) then
    ts.map (fun row => if row.domain == d then tok else row)
  else ts ++ [tok]

/-- Modelled from the spec: `PutToken` generates a fresh token for the
domain, superseding any previously issued token for the same domain, and
stores it unused with an expiration in the future (§4.3). Its test
`TestPutUseToken` issues directly after `ClearTables` with no registered
domain and demands success, so no registration check is performed and the
operation never fails in the model (real failures are storage errors,
outside the model). -/
def PutToken (d : String) (now : Nat) (st : DBState) : Except DBError (TokenData × DBState) :=
  let tok : TokenData :=
    { token := st.nextToken, domain := d, expiration := now + tokenValidity, used := false }
  Except.ok
    (tok, { st with tokens := upsertToken d tok st.tokens, nextToken := st.nextToken + 1 })

/-- Modelled from the spec: marking a token's row used (the compare-and-set
part of `UseToken`, §4.3). -/
def markUsed (t : Nat) (ts : List TokenData) : List TokenData :=
  ts.map (fun row => if row.token == t then { row with used := true } else row)

/-- Modelled from the spec: `UseToken` looks the token up and fails with
InvalidToken when it does not exist (also when superseded, since
supersession discarded its row), is already used, or is expired; on
success it marks the token used and returns the associated domain
(§4.3). -/
def UseToken (t : Nat) (now : Nat) (st : DBState) : Except DBError (String × DBState) :=
  match st.tokens.find? (fun row => row.token == t) with
  | none => Except.error DBError.invalidToken
  | some row =>
    if row.used then Except.error DBError.invalidToken
    else if row.expiration < now then Except.error DBError.invalidToken
    else Except.ok (row.domain, { st with tokens := markUsed t st.tokens })

/-- Modelled from the spec: one API-level operation against the store, used
to quantify over "any later state" — everything external callers can do
(§2 control flow plus the test hook). -/
inductive Op where
  | putScan (r : ScanData)
  | putDomain (d : DomainData)
  | putToken (d : String) (now : Nat)
  | useToken (t : Nat) (now : Nat)
  | clearTables

/-- Modelled from the spec: the state reached by one operation (return
values discarded; a failing `UseToken` leaves the state unchanged). -/
def applyOp (op : Op) (st : DBState) : DBState :=
  match op with
  | Op.putScan r => PutScan r st
  | Op.putDomain d => PutDomain d st
  | Op.putToken d now =>
    match PutToken d now st with
    | Except.ok (_, st1) => st1
    | Except.error _ => st
  | Op.useToken t now =>
    match UseToken t now st with
    | Except.ok (_, st1) => st1
    | Except.error _ => st
  | Op.clearTables => ClearTables st

/-- Modelled from the spec: the state after a sequence of operations. -/
def applyOps (ops : List Op) (st : DBState) : DBState :=
  ops.foldl (fun s op => applyOp op s) st

/-! ### Specification-side definitions used to state the claims -/

/-- Joining pieces with single dots: the inverse reading of the claim's
"dot-separated labels". -/
def joinDots : List (List Char) → List Char
  | [] => []
  | [piece] => piece
  | piece :: next :: rest => piece ++ '.' :: joinDots (next :: rest)

/-- The claim's wording for a label's first character: a letter, a digit,
or an underscore. -/
abbrev goodStartChar (c : Char) : Prop :=
  c.isAlpha = true ∨ c.isDigit = true ∨ c = '_'

/-- The claim's wording for a label's later characters: a letter, a digit,
an underscore, or a hyphen. -/
abbrev goodRestChar (c : Char) : Prop :=
  c.isAlpha = true ∨ c.isDigit = true ∨ c = '_' ∨ c = '-'

/-- The claim's wording for one label: 1 to 63 characters drawn from
letters, digits, underscore, and (after the first character) hyphen. -/
abbrev SpecLabel (l : List Char) : Prop :=
  1 ≤ l.length ∧ l.length ≤ 63 ∧
    (∀ c ∈ l.take 1, goodStartChar c) ∧ (∀ c ∈ l.drop 1, goodRestChar c)

/-- The claim's wording for the anchored pattern: the whole string is a
nonempty sequence of dot-separated valid labels. -/
def SpecDNS (s : String) : Prop :=
  ∃ labels : List (List Char),
    labels ≠ [] ∧ s.data = joinDots labels ∧ ∀ l ∈ labels, SpecLabel l

/-- The string `m` occurs contiguously inside the string `s`. -/
def containsStr (s m : String) : Prop :=
  ∃ pre post, s = pre ++ m ++ post

/-- A sequence of `PutScan` insertions, in order. -/
def putScans (rs : List ScanData) (st : DBState) : DBState :=
  rs.foldl (fun s r => PutScan r s) st

/-- The number of rows of the domains table carrying the given name. -/
def domCount (n : String) (st : DBState) : Nat :=
  (st.domains.filter (fun row => row.name == n)).length

/-- Every token row's value is below the freshness counter, so a token the
generator hands out next never collides with an existing row. This is the
model's rendering of the opaque random token's freshness; it holds in every
reachable state. -/
abbrev goodCounter (st : DBState) : Prop :=
  ∀ row ∈ st.tokens, row.token < st.nextToken

/-- A consumed token: its value was already issued, and every row carrying
it (if any is left) is marked used. -/
abbrev consumed (t : Nat) (st : DBState) : Prop :=
  t < st.nextToken ∧ ∀ row ∈ st.tokens, row.token = t → row.used = true

/-! ### Basic lemmas about the composite-error helpers -/

theorem requireEnv_snd (v : String) (env : String → Option String) (errs : Errors) :
    (requireEnv v env errs).2 =
      if (getenv env v).length = 0 then errs ++ [missingMsg v] else errs := by
  simp only [requireEnv, Errors.add]
  split <;> rfl

theorem loadEnv_go (vars : List String) (env : String → Option String) (errs : Errors) :
    vars.foldl (fun acc v => (requireEnv v env acc).2) errs =
      errs ++ (vars.filter (fun v => (getenv env v).length == 0)).map missingMsg := by
  induction vars generalizing errs with
  | nil => simp
  | cons a t ih =>
    rw [List.foldl_cons, requireEnv_snd]
    by_cases h : (getenv env a).length = 0
    · rw [if_pos h, ih]
      have hb : ((getenv env a).length == 0) = true := by simpa using h
      simp [List.filter_cons, hb, List.append_assoc]
    · rw [if_neg h, ih]
      have hb : ((getenv env a).length == 0) = false := by simpa using h
      simp [List.filter_cons, hb]

theorem foldl_newline_extend (l : List String) (acc : String) :
    ∃ suffix, l.foldl (fun msg m => msg ++ "\n" ++ m) acc = acc ++ suffix := by
  induction l generalizing acc with
  | nil => exact ⟨"", by simp [String.append_empty]⟩
  | cons a t ih =>
    obtain ⟨suf, hs⟩ := ih (acc ++ "\n" ++ a)
    refine ⟨"\n" ++ a ++ suf, ?_⟩
    simp only [List.foldl_cons]
    rw [hs]
    simp only [String.append_assoc]

theorem mem_foldl_newline (l : List String) (acc m : String) (hm : m ∈ l) :
    ∃ pre post, l.foldl (fun msg s => msg ++ "\n" ++ s) acc = pre ++ m ++ post := by
  induction l generalizing acc with
  | nil => cases hm
  | cons a t ih =>
    rcases List.mem_cons.1 hm with h | h
    · subst h
      obtain ⟨suf, hs⟩ := foldl_newline_extend t (acc ++ "\n" ++ m)
      refine ⟨acc ++ "\n", suf, ?_⟩
      simp only [List.foldl_cons]
      exact hs
    · exact ih (acc ++ "\n" ++ a) h

theorem errorString_contains (e : Errors) (m : String) (hm : m ∈ e) :
    containsStr (Errors.errorString e) m := by
  match e with
  | [] => cases hm
  | [x] =>
    rcases List.mem_singleton.1 hm with rfl
    exact ⟨"", "", by simp [Errors.errorString, String.empty_append, String.append_empty]⟩
  | x :: y :: t =>
    obtain ⟨pre, post, h⟩ :=
      mem_foldl_newline (x :: y :: t) "multiple errors:" m hm
    exact ⟨pre, post, by simpa [Errors.errorString] using h⟩

/-- C8: for every set of required configuration variable names, running the
environment loader with any subset of them unset collects exactly one error
per unset variable — the composite equals the missing-variable messages of
the unset names, in order — and the composite's `Error()` message contains
the message for every missing variable, not only the first. -/
theorem requireEnv_aggregates_all_missing (vars : List String) (env : String → Option String) :
    loadEnv vars env =
      (vars.filter (fun v => (getenv env v).length == 0)).map missingMsg ∧
    ∀ v ∈ vars, (getenv env v).length = 0 →
      containsStr (Errors.errorString (loadEnv vars env)) (missingMsg v) := by
  have hchar : loadEnv vars env =
      (vars.filter (fun v => (getenv env v).length == 0)).map missingMsg := by
    simpa [loadEnv] using loadEnv_go vars env []
  refine ⟨hchar, ?_⟩
  intro v hv h0
  apply errorString_contains
  rw [hchar]
  exact List.mem_map.2 ⟨v, List.mem_filter.2 ⟨hv, by simpa using h0⟩, rfl⟩

/-- Witness for C8: with both of two required variables unset, the composite
message contains the missing-variable message of each of them. -/
theorem requireEnv_aggregates_all_missing_witness :
    containsStr
      (Errors.errorString (loadEnv ["PRIV_KEY", "PUBLIC_KEY"] (fun _ => none)))
      (missingMsg "PRIV_KEY") ∧
    containsStr
      (Errors.errorString (loadEnv ["PRIV_KEY", "PUBLIC_KEY"] (fun _ => none)))
      (missingMsg "PUBLIC_KEY") :=
  ⟨(requireEnv_aggregates_all_missing ["PRIV_KEY", "PUBLIC_KEY"] (fun _ => none)).2
      "PRIV_KEY" (by simp) rfl,
    (requireEnv_aggregates_all_missing ["PRIV_KEY", "PUBLIC_KEY"] (fun _ => none)).2
      "PUBLIC_KEY" (by simp) rfl⟩

/-- C10: `requireEnv` never aborts the process — it returns the variable's
value unconditionally, appends the missing-variable error to the composite
exactly when that value has length zero, and treats a variable explicitly
set to the empty string the same as one that is entirely unset. -/
theorem requireEnv_no_panic (v : String) (env : String → Option String) (errs : Errors) :
    (requireEnv v env errs).1 = getenv env v ∧
    (requireEnv v env errs).2 =
      (if (getenv env v).length = 0 then errs ++ [missingMsg v] else errs) ∧
    ∀ envSet envUnset : String → Option String,
      envSet v = some "" → envUnset v = none →
      requireEnv v envSet errs = requireEnv v envUnset errs := by
  refine ⟨?_, requireEnv_snd v env errs, ?_⟩
  · simp only [requireEnv]
    split <;> rfl
  · intro e1 e2 h1 h2
    simp [requireEnv, getenv, h1, h2]

/-- Witness for C10: an environment with `DB_HOST` set to the empty string
gives `requireEnv` the same outcome as one with `DB_HOST` unset. -/
theorem requireEnv_no_panic_witness :
    requireEnv "DB_HOST" (fun _ => some "") [] =
      requireEnv "DB_HOST" (fun _ => none) [] :=
  (requireEnv_no_panic "DB_HOST" (fun _ => some "") []).2.2
    (fun _ => some "") (fun _ => none) rfl rfl

/-! ### Lemmas about dot-splitting and the label classes -/

theorem splitDots_ne_nil (l : List Char) : splitDots l ≠ [] := by
  induction l with
  | nil => simp [splitDots]
  | cons c rest ih =>
    simp only [splitDots]
    split
    · simp
    · cases h : splitDots rest with
      | nil => exact absurd h ih
      | cons a t => simp [h]

theorem joinDots_modifyHead (c : Char) (ll : List (List Char)) (h : ll ≠ []) :
    joinDots (ll.modifyHead (fun piece => c :: piece)) = c :: joinDots ll := by
  match ll with
  | [] => exact absurd rfl h
  | [x] => rfl
  | x :: y :: t => rfl

theorem joinDots_splitDots (l : List Char) : joinDots (splitDots l) = l := by
  induction l with
  | nil => rfl
  | cons c rest ih =>
    simp only [splitDots]
    split
    · rename_i hdot
      subst hdot
      cases hs : splitDots rest with
      | nil => exact absurd hs (splitDots_ne_nil rest)
      | cons a t =>
        rw [hs] at ih
        show '.' :: joinDots (a :: t) = '.' :: rest
        rw [ih]
    · rw [joinDots_modifyHead c _ (splitDots_ne_nil rest), ih]

theorem splitDots_no_dot (l : List Char) (h : '.' ∉ l) : splitDots l = [l] := by
  induction l with
  | nil => rfl
  | cons c rest ih =>
    have hc : ¬ c = '.' := by
      intro e
      exact h (by rw [e]; exact List.mem_cons_self _ _)
    have hr : '.' ∉ rest := fun m => h (List.mem_cons_of_mem c m)
    simp only [splitDots, if_neg hc, ih hr, List.modifyHead]

theorem splitDots_append_dot (x as : List Char) (h : '.' ∉ x) :
    splitDots (x ++ '.' :: as) = x :: splitDots as := by
  induction x with
  | nil => simp [splitDots]
  | cons c xr ih =>
    have hc : ¬ c = '.' := by
      intro e
      exact h (by rw [e]; exact List.mem_cons_self _ _)
    have hr : '.' ∉ xr := fun m => h (List.mem_cons_of_mem c m)
    simp only [List.cons_append, splitDots, if_neg hc]
    rw [show xr.append ('.' :: as) = xr ++ '.' :: as from rfl, ih hr,
      List.modifyHead_cons]

theorem splitDots_joinDots :
    ∀ labels : List (List Char), labels ≠ [] → (∀ l ∈ labels, '.' ∉ l) →
      splitDots (joinDots labels) = labels
  | [], hne, _ => absurd rfl hne
  | [x], _, h => splitDots_no_dot x (h x (by simp))
  | x :: y :: t, _, h => by
    have hrec :=
      splitDots_joinDots (y :: t) (by simp) (fun l hl => h l (List.mem_cons_of_mem x hl))
    rw [show joinDots (x :: y :: t) = x ++ '.' :: joinDots (y :: t) from rfl,
      splitDots_append_dot x _ (h x (List.mem_cons_self _ _)), hrec]

theorem isLabelStartChar_iff (c : Char) : isLabelStartChar c = true ↔ goodStartChar c := by
  simp [isLabelStartChar, goodStartChar, or_assoc]

theorem isLabelChar_iff (c : Char) : isLabelChar c = true ↔ goodRestChar c := by
  simp [isLabelChar, isLabelStartChar, goodRestChar, or_assoc]

theorem isLabel_iff (l : List Char) : isLabel l = true ↔ SpecLabel l := by
  cases l with
  | nil =>
    constructor
    · intro h
      simp [isLabel] at h
    · intro h
      exact absurd h.1 (by decide)
  | cons c rest =>
    constructor
    · intro h
      simp only [isLabel, Bool.and_eq_true] at h
      obtain ⟨⟨hstart, hlen⟩, hall⟩ := h
      refine ⟨by simp, ?_, ?_, ?_⟩
      · have := of_decide_eq_true hlen
        simp only [List.length_cons]
        omega
      · intro x hx
        rw [List.take_succ_cons, List.take_zero, List.mem_singleton] at hx
        subst hx
        exact (isLabelStartChar_iff x).1 hstart
      · intro x hx
        rw [List.drop_succ_cons, List.drop_zero] at hx
        exact (isLabelChar_iff x).1 (List.all_eq_true.1 hall x hx)
    · rintro ⟨h1, h2, h3, h4⟩
      simp only [isLabel, Bool.and_eq_true]
      refine ⟨⟨?_, ?_⟩, ?_⟩
      · exact (isLabelStartChar_iff c).2 (h3 c (by simp))
      · refine decide_eq_true ?_
        simp only [List.length_cons] at h2
        omega
      · exact List.all_eq_true.2
          (fun x hx => (isLabelChar_iff x).2 (h4 x (by simpa using hx)))

theorem SpecLabel_no_dot (l : List Char) (h : SpecLabel l) : '.' ∉ l := by
  intro hm
  obtain ⟨-, -, h3, h4⟩ := h
  rw [← List.take_append_drop 1 l] at hm
  rcases List.mem_append.1 hm with hm1 | hm2
  · exact absurd (h3 '.' hm1) (by decide)
  · exact absurd (h4 '.' hm2) (by decide)

/-- C9: every string that is empty or has no dot is rejected by
`validDomainName` (so a single-label name such as "localhost" always is,
even though it matches the regular expression); every other string is
accepted exactly when it is a sequence of dot-separated labels of 1 to 63
characters drawn from letters, digits, underscore, and (after the first
character) hyphen. -/
theorem validDomainName_characterization :
    (∀ s : String, s.data = [] ∨ s.data.contains '.' = false →
      validDomainName s = false) ∧
    (∀ s : String, s.data.contains '.' = true →
      (validDomainName s = true ↔ SpecDNS s)) := by
  constructor
  · intro s h
    rcases h with h | h
    · simp [validDomainName, h]
    · have h' : ¬ '.' ∈ s.data := by simpa using h
      simp [validDomainName, h']
  · intro s hc
    have hdot : '.' ∈ s.data := by simpa using hc
    have hne : s.data ≠ [] := by
      intro h
      rw [h] at hdot
      cases hdot
    have hlen2 : ¬ s.length = 0 := by
      intro e
      exact hne (List.length_eq_zero.1 e)
    have hv : validDomainName s = matchDNS s := by
      simp [validDomainName, hdot, hlen2]
    rw [hv]
    constructor
    · intro hm
      refine ⟨splitDots s.data, splitDots_ne_nil _, (joinDots_splitDots s.data).symm, ?_⟩
      intro l hl
      exact (isLabel_iff l).1 (List.all_eq_true.1 hm l hl)
    · rintro ⟨labels, hne2, hdata, hlab⟩
      have hnodot : ∀ l ∈ labels, '.' ∉ l := fun l hl => SpecLabel_no_dot l (hlab l hl)
      rw [matchDNS, hdata, splitDots_joinDots labels hne2 hnodot]
      exact List.all_eq_true.2 (fun l hl => (isLabel_iff l).2 (hlab l hl))

/-- Witness for C9: "localhost" (no dot, regex-conformant) is rejected, and
"eff.org" is accepted with its two-label decomposition. -/
theorem validDomainName_characterization_witness :
    validDomainName "localhost" = false ∧ validDomainName "eff.org" = true :=
  ⟨validDomainName_characterization.1 "localhost" (Or.inr rfl),
    (validDomainName_characterization.2 "eff.org" rfl).2
      ⟨[['e', 'f', 'f'], ['o', 'r', 'g']], by decide, rfl, by decide⟩⟩

/-! ### Scan-store lemmas and claims -/

theorem latestOf_pair (x y : ScanData) :
    latestOf [x, y] = if x.timestamp ≤ y.timestamp then some y else some x := rfl

theorem putScans_scans (rs : List ScanData) (st : DBState) :
    (putScans rs st).scans = st.scans ++ rs := by
  induction rs generalizing st with
  | nil => simp [putScans]
  | cons r t ih =>
    rw [show putScans (r :: t) st = putScans t (PutScan r st) from rfl, ih]
    simp [PutScan, List.append_assoc]

/-- C1: for a domain with exactly two scan records of timestamps T1 < T2,
inserted by `PutScan` in either order, `GetLatestScan` returns the record
with timestamp T2; with zero scan records it fails with NotFound. -/
theorem getLatestScan_pair (st : DBState) (dom : String) (r1 r2 a b : ScanData)
    (hfilter : st.scans.filter (fun r => r.domain == dom) = [])
    (ht : r1.timestamp < r2.timestamp)
    (horder : (a = r1 ∧ b = r2) ∨ (a = r2 ∧ b = r1))
    (h1 : r1.domain = dom) (h2 : r2.domain = dom) :
    GetLatestScan dom (PutScan b (PutScan a st)) = Except.ok r2 ∧
    GetLatestScan dom st = Except.error DBError.notFound := by
  have hscans : (PutScan b (PutScan a st)).scans = (st.scans ++ [a]) ++ [b] := rfl
  constructor
  · have hpa : (a.domain == dom) = true := by
      rcases horder with ⟨rfl, rfl⟩ | ⟨rfl, rfl⟩ <;> simp [h1, h2]
    have hpb : (b.domain == dom) = true := by
      rcases horder with ⟨rfl, rfl⟩ | ⟨rfl, rfl⟩ <;> simp [h1, h2]
    rcases horder with ⟨rfl, rfl⟩ | ⟨rfl, rfl⟩
    · have hif : latestOf [a, b] = some b := by
        rw [latestOf_pair, if_pos (Nat.le_of_lt ht)]
      simp [GetLatestScan, hscans, List.filter_append, hfilter, hpa, hpb, hif]
    · have hif : latestOf [a, b] = some a := by
        rw [latestOf_pair, if_neg (Nat.not_le.2 ht)]
      simp [GetLatestScan, hscans, List.filter_append, hfilter, hpa, hpb, hif]
  · simp [GetLatestScan, hfilter, latestOf]

/-- Witness for C1: the later-stamped scan is inserted first, as in
`TestGetLatestScan`, and is still the one returned; the empty store yields
NotFound. -/
theorem getLatestScan_pair_witness :
    GetLatestScan "dummy.com"
      (PutScan { domain := "dummy.com", data := "test_before", timestamp := 0 }
        (PutScan { domain := "dummy.com", data := "test_after", timestamp := 3600 }
          initState)) =
      Except.ok { domain := "dummy.com", data := "test_after", timestamp := 3600 } ∧
    GetLatestScan "dummy.com" initState = Except.error DBError.notFound :=
  getLatestScan_pair initState "dummy.com"
    { domain := "dummy.com", data := "test_before", timestamp := 0 }
    { domain := "dummy.com", data := "test_after", timestamp := 3600 }
    { domain := "dummy.com", data := "test_after", timestamp := 3600 }
    { domain := "dummy.com", data := "test_before", timestamp := 0 }
    rfl (by decide) (Or.inr ⟨rfl, rfl⟩) rfl rfl

/-- C6: `GetAllScans` on a domain with no scan records returns the empty
sequence and no error; after inserting records R1..Rn for the domain via
`PutScan` it returns exactly those records (a permutation of them) ordered
by timestamp ascending. -/
theorem getAllScans_ordered (st : DBState) (dom : String) (rs : List ScanData)
    (hfilter : st.scans.filter (fun r => r.domain == dom) = [])
    (hall : ∀ r ∈ rs, r.domain = dom) :
    GetAllScans dom st = Except.ok [] ∧
    ∃ l, GetAllScans dom (putScans rs st) = Except.ok l ∧
      List.Perm l rs ∧ l.Pairwise (fun x y => x.timestamp ≤ y.timestamp) := by
  have hfil : (putScans rs st).scans.filter (fun r => r.domain == dom) = rs := by
    rw [putScans_scans, List.filter_append, hfilter, List.nil_append]
    exact List.filter_eq_self.2 (fun r hr => by simp [hall r hr])
  constructor
  · simp [GetAllScans, hfilter]
  · refine ⟨_, rfl, ?_, ?_⟩
    · have hperm :=
        List.mergeSort_perm ((putScans rs st).scans.filter (fun r => r.domain == dom))
          (fun a b => decide (a.timestamp ≤ b.timestamp))
      rw [hfil] at hperm ⊢
      exact hperm
    · have hs :=
        @List.sorted_mergeSort ScanData
          (fun a b : ScanData => decide (a.timestamp ≤ b.timestamp))
          (fun a b c hab hbc => by
            simp only [decide_eq_true_eq] at hab hbc ⊢
            omega)
          (fun a b => by
            simp only [Bool.or_eq_true, decide_eq_true_eq]
            omega)
          ((putScans rs st).scans.filter (fun r => r.domain == dom))
      exact hs.imp (fun h => of_decide_eq_true h)

/-- Witness for C6: the two same-timestamp records of `TestGetAllScans`,
inserted into the empty store. -/
theorem getAllScans_ordered_witness :
    GetAllScans "dummy.com" initState = Except.ok [] ∧
    ∃ l, GetAllScans "dummy.com"
        (putScans
          [{ domain := "dummy.com", data := "test1", timestamp := 5 },
            { domain := "dummy.com", data := "test2", timestamp := 5 }] initState) =
        Except.ok l ∧
      List.Perm l
        [{ domain := "dummy.com", data := "test1", timestamp := 5 },
          { domain := "dummy.com", data := "test2", timestamp := 5 }] ∧
      l.Pairwise (fun x y => x.timestamp ≤ y.timestamp) :=
  getAllScans_ordered initState "dummy.com"
    [{ domain := "dummy.com", data := "test1", timestamp := 5 },
      { domain := "dummy.com", data := "test2", timestamp := 5 }]
    rfl (by decide)

/-! ### Domain-store lemmas and claims -/

theorem find?_map_pointwise {α : Type} (l : List α) (p : α → Bool) (f : α → α)
    (h : ∀ x, p (f x) = p x) :
    (l.map f).find? p = (l.find? p).map f := by
  induction l with
  | nil => rfl
  | cons a t ih =>
    rw [List.map_cons, List.find?_cons, List.find?_cons, h a]
    cases hpa : p a
    · simpa using ih
    · simp

theorem domCount_zero_find (n : String) (st : DBState) (h : domCount n st = 0) :
    st.domains.find? (fun row => row.name == n) = none := by
  rw [List.find?_eq_none]
  intro x hx hpx
  have hmem : x ∈ st.domains.filter (fun row => row.name == n) :=
    List.mem_filter.2 ⟨hx, hpx⟩
  rw [List.length_eq_zero.1 h] at hmem
  cases hmem

theorem putDomain_domCount (d : DomainData) (st : DBState) :
    domCount d.name (PutDomain d st) =
      if domCount d.name st = 0 then 1 else domCount d.name st := by
  by_cases h0 : domCount d.name st = 0
  · rw [if_pos h0]
    have hf := domCount_zero_find d.name st h0
    have hfe : st.domains.filter (fun row => row.name == d.name) = [] :=
      List.length_eq_zero.1 h0
    simp [PutDomain, hf, domCount, List.filter_append, hfe]
  · rw [if_neg h0]
    have hex : ∃ row ∈ st.domains, (row.name == d.name) = true := by
      rcases hne : st.domains.filter (fun row => row.name == d.name) with _ | ⟨x, t⟩
      · exact absurd (by rw [domCount, hne]; rfl) h0
      · have hx : x ∈ st.domains.filter (fun row => row.name == d.name) := by
          rw [hne]
          exact List.mem_cons_self _ _
        obtain ⟨hx1, hx2⟩ := List.mem_filter.1 hx
        exact ⟨x, hx1, hx2⟩
    obtain ⟨row, hmem, hp⟩ := hex
    have hsome : (st.domains.find? (fun r => r.name == d.name)).isSome :=
      List.find?_isSome.2 ⟨row, hmem, hp⟩
    cases hfind : st.domains.find? (fun r => r.name == d.name) with
    | none => rw [hfind] at hsome; cases hsome
    | some r0 =>
      simp only [PutDomain, hfind]
      rw [domCount, domCount]
      rw [List.filter_map, List.length_map]
      congr 1
      refine List.filter_congr ?_
      intro x hx
      by_cases hxn : (x.name == d.name) = true
      · simp [Function.comp, hxn, mergeDomain]
      · simp only [Bool.not_eq_true] at hxn
        simp [Function.comp, hxn]

theorem putDomain_foldl_keep (ds : List DomainData) (st : DBState) (n : String)
    (hall : ∀ d ∈ ds, d.name = n) (h1 : domCount n st = 1) :
    domCount n (ds.foldl (fun s d => PutDomain d s) st) = 1 := by
  induction ds generalizing st with
  | nil => simpa using h1
  | cons d t ih =>
    rw [List.foldl_cons]
    refine ih _ (fun x hx => hall x (List.mem_cons_of_mem d hx)) ?_
    have hd := hall d (List.mem_cons_self d t)
    have hcount := putDomain_domCount d st
    rw [hd] at hcount
    simp [hcount, h1]

/-- C4: starting from a state with no row for the name N, any nonempty
sequence of `PutDomain` calls carrying name N leaves exactly one row with
name N — the first call creates it and every later one updates it in
place. -/
theorem putDomain_unique_row (st : DBState) (n : String) (ds : List DomainData)
    (hne : ds ≠ []) (hall : ∀ d ∈ ds, d.name = n) (h0 : domCount n st = 0) :
    domCount n (ds.foldl (fun s d => PutDomain d s) st) = 1 := by
  cases ds with
  | nil => exact absurd rfl hne
  | cons d t =>
    rw [List.foldl_cons]
    refine putDomain_foldl_keep t _ n (fun x hx => hall x (List.mem_cons_of_mem d hx)) ?_
    have hd := hall d (List.mem_cons_self d t)
    have hcount := putDomain_domCount d st
    rw [hd] at hcount
    rw [hcount, if_pos h0]

/-- Witness for C4: registering "testing.com" and then re-registering it
with a new state, as `TestUpsertDomain` does, leaves exactly one row. -/
theorem putDomain_unique_row_witness :
    domCount "testing.com"
      (List.foldl (fun s d => PutDomain d s) initState
        [{ name := "testing.com", email := "admin@testing.com",
            state := DomainState.unvalidated },
          { name := "testing.com", email := "", state := DomainState.queued }]) = 1 :=
  putDomain_unique_row initState "testing.com"
    [{ name := "testing.com", email := "admin@testing.com",
        state := DomainState.unvalidated },
      { name := "testing.com", email := "", state := DomainState.queued }]
    (by simp) (by decide) rfl

/-- C5: re-registering a domain with only a name and a state merges into
the existing row — the state is updated to the supplied one while a
previously stored non-empty email address is kept. -/
theorem putDomain_partial_update_keeps_email (st : DBState) (n e : String)
    (s : DomainState) (row : DomainData)
    (hfind : st.domains.find? (fun r => r.name == n) = some row)
    (hemail : row.email = e) (hne : e ≠ "") :
    GetDomain n (PutDomain { name := n, email := "", state := s } st) =
      Except.ok { name := n, email := e, state := s } := by
  have hrowp : (row.name == n) = true := by
    have h1 := List.find?_some hfind
    simpa using h1
  simp only [PutDomain, hfind]
  have hpt : ∀ x : DomainData,
      ((if x.name == n then mergeDomain x { name := n, email := "", state := s }
          else x).name == n) = (x.name == n) := by
    intro x
    by_cases hx : (x.name == n) = true
    · simp [hx, mergeDomain]
    · simp only [Bool.not_eq_true] at hx
      simp [hx]
  have hrn : row.name = n := by simpa using hrowp
  simp only [GetDomain]
  rw [find?_map_pointwise _ _ _ hpt, hfind]
  simp [hrowp, hrn, mergeDomain, hemail]

/-- Witness for C5: after registering "testing.com" with an email, the
partial update of `TestUpsertDomain` sets the state to Queued and keeps the
email. -/
theorem putDomain_partial_update_keeps_email_witness :
    GetDomain "testing.com"
      (PutDomain ⟨"testing.com", "", DomainState.queued⟩
        ⟨[], [⟨"testing.com", "admin@testing.com", DomainState.unvalidated⟩], [], 0⟩) =
      Except.ok ⟨"testing.com", "admin@testing.com", DomainState.queued⟩ :=
  putDomain_partial_update_keeps_email
    ⟨[], [⟨"testing.com", "admin@testing.com", DomainState.unvalidated⟩], [], 0⟩
    "testing.com" "admin@testing.com" DomainState.queued
    ⟨"testing.com", "admin@testing.com", DomainState.unvalidated⟩
    rfl rfl (by decide)

/-! ### Token-store lemmas -/

theorem mem_upsertToken {d : String} {tok : TokenData} {ts : List TokenData} {r : TokenData}
    (hr : r ∈ upsertToken d tok ts) :
    r = tok ∨ (r ∈ ts ∧ (r.domain == d) = false) := by
  unfold upsertToken at hr
  split at hr
  · obtain ⟨x, hx, hfx⟩ := List.mem_map.1 hr
    by_cases hxd : (x.domain == d) = true
    · rw [if_pos hxd] at hfx
      exact Or.inl hfx.symm
    · rw [if_neg hxd] at hfx
      subst hfx
      exact Or.inr ⟨hx, by simpa using hxd⟩
  · rename_i hany
    rcases List.mem_append.1 hr with h | h
    · refine Or.inr ⟨h, ?_⟩
      have hall : ∀ x ∈ ts, ¬ x.domain = d := by simpa using hany
      simpa using hall r h
    · exact Or.inl (List.mem_singleton.1 h)

theorem self_mem_upsertToken (d : String) (tok : TokenData) (ts : List TokenData) :
    tok ∈ upsertToken d tok ts := by
  unfold upsertToken
  split
  · rename_i hany
    obtain ⟨x, hx, hpx⟩ := List.any_eq_true.1 hany
    exact List.mem_map.2 ⟨x, hx, by rw [if_pos hpx]⟩
  · exact List.mem_append.2 (Or.inr (List.mem_singleton.2 rfl))

theorem find?_eq_some_unique {α : Type} (l : List α) (p : α → Bool) (v : α)
    (hmem : v ∈ l) (hv : p v = true) (huniq : ∀ x ∈ l, p x = true → x = v) :
    l.find? p = some v := by
  induction l with
  | nil => cases hmem
  | cons a t ih =>
    rw [List.find?_cons]
    cases hpa : p a with
    | true =>
      have : a = v := huniq a (List.mem_cons_self _ _) hpa
      simp [this]
    | false =>
      have hva : v ≠ a := by
        intro e
        rw [e] at hv
        rw [hv] at hpa
        cases hpa
      have hvt : v ∈ t := by
        rcases List.mem_cons.1 hmem with h | h
        · exact absurd h hva
        · exact h
      simpa using ih hvt (fun x hx hpx => huniq x (List.mem_cons_of_mem a hx) hpx)

theorem useToken_ok_inv {t now : Nat} {st : DBState} {d : String} {st1 : DBState}
    (h : UseToken t now st = Except.ok (d, st1)) :
    ∃ row, st.tokens.find? (fun r => r.token == t) = some row ∧
      row.used = false ∧ ¬ row.expiration < now ∧ d = row.domain ∧
      st1 = { st with tokens := markUsed t st.tokens } := by
  unfold UseToken at h
  cases hf : st.tokens.find? (fun r => r.token == t) with
  | none => rw [hf] at h; cases h
  | some row =>
    rw [hf] at h
    have h2 : (if row.used = true then Except.error DBError.invalidToken
        else if row.expiration < now then Except.error DBError.invalidToken
        else Except.ok (row.domain, { st with tokens := markUsed t st.tokens })) =
        Except.ok (d, st1) := h
    by_cases hu : row.used = true
    · rw [if_pos hu] at h2; cases h2
    · rw [if_neg hu] at h2
      by_cases he : row.expiration < now
      · rw [if_pos he] at h2; cases h2
      · rw [if_neg he] at h2
        simp only [Except.ok.injEq, Prod.mk.injEq] at h2
        exact ⟨row, rfl, by simpa using hu, he, h2.1.symm, h2.2.symm⟩

theorem goodCounter_mark (t : Nat) (st : DBState) (hg : goodCounter st) :
    goodCounter { st with tokens := markUsed t st.tokens } := by
  intro row hrow
  obtain ⟨x, hx, hfx⟩ := List.mem_map.1 hrow
  have htok : row.token = x.token := by
    rw [← hfx]
    split <;> rfl
  show row.token < st.nextToken
  rw [htok]
  exact hg x hx

theorem consumed_mark (t t2 : Nat) (st : DBState) (hc : consumed t st) :
    consumed t { st with tokens := markUsed t2 st.tokens } := by
  refine ⟨hc.1, ?_⟩
  intro row hrow hteq
  obtain ⟨x, hx, hfx⟩ := List.mem_map.1 hrow
  by_cases hxt : (x.token == t2) = true
  · rw [← hfx, if_pos hxt]
  · rw [← hfx, if_neg hxt]
    refine hc.2 x hx ?_
    rw [← hfx, if_neg hxt] at hteq
    exact hteq

theorem putDomain_tokens (d : DomainData) (st : DBState) :
    (PutDomain d st).tokens = st.tokens := by
  unfold PutDomain
  split <;> rfl

theorem putDomain_nextToken (d : DomainData) (st : DBState) :
    (PutDomain d st).nextToken = st.nextToken := by
  unfold PutDomain
  split <;> rfl

theorem goodCounter_applyOp (op : Op) (st : DBState) (hg : goodCounter st) :
    goodCounter (applyOp op st) := by
  cases op with
  | putScan r => exact hg
  | putDomain d =>
    intro row hrow
    rw [show (applyOp (Op.putDomain d) st).tokens = st.tokens from putDomain_tokens d st]
      at hrow
    rw [show (applyOp (Op.putDomain d) st).nextToken = st.nextToken from
      putDomain_nextToken d st]
    exact hg row hrow
  | putToken dom now =>
    intro row hrow
    show row.token < st.nextToken + 1
    rcases mem_upsertToken hrow with rfl | ⟨hmem, -⟩
    · show st.nextToken < st.nextToken + 1
      omega
    · have := hg row hmem
      omega
  | useToken t now =>
    cases hu : UseToken t now st with
    | error e =>
      simp only [applyOp, hu]
      exact hg
    | ok p =>
      obtain ⟨d1, st1⟩ := p
      obtain ⟨row, hfind, hused, hexp, hd, hst⟩ := useToken_ok_inv hu
      simp only [applyOp, hu]
      rw [hst]
      exact goodCounter_mark t st hg
  | clearTables =>
    intro row hrow
    cases hrow

theorem consumed_applyOp (op : Op) (st : DBState) (t : Nat) (hc : consumed t st) :
    consumed t (applyOp op st) := by
  cases op with
  | putScan r => exact hc
  | putDomain d =>
    refine ⟨?_, ?_⟩
    · rw [show (applyOp (Op.putDomain d) st).nextToken = st.nextToken from
        putDomain_nextToken d st]
      exact hc.1
    · intro row hrow
      rw [show (applyOp (Op.putDomain d) st).tokens = st.tokens from putDomain_tokens d st]
        at hrow
      exact hc.2 row hrow
  | putToken dom now =>
    refine ⟨?_, ?_⟩
    · show t < st.nextToken + 1
      have := hc.1
      omega
    · intro row hrow hteq
      rcases mem_upsertToken hrow with rfl | ⟨hmem, -⟩
      · exact absurd hteq (by have := hc.1; show ¬ st.nextToken = t; omega)
      · exact hc.2 row hmem hteq
  | useToken t2 now =>
    cases hu : UseToken t2 now st with
    | error e =>
      simp only [applyOp, hu]
      exact hc
    | ok p =>
      obtain ⟨d1, st1⟩ := p
      obtain ⟨row, hfind, hused, hexp, hd, hst⟩ := useToken_ok_inv hu
      simp only [applyOp, hu]
      rw [hst]
      exact consumed_mark t t2 st hc
  | clearTables =>
    refine ⟨hc.1, ?_⟩
    intro row hrow
    cases hrow

theorem consumed_applyOps (ops : List Op) (st : DBState) (t : Nat) (hc : consumed t st) :
    consumed t (applyOps ops st) := by
  induction ops generalizing st with
  | nil => exact hc
  | cons op rest ih => exact ih _ (consumed_applyOp op st t hc)

theorem consumed_useToken_fails (t now : Nat) (st : DBState) (hc : consumed t st) :
    UseToken t now st = Except.error DBError.invalidToken := by
  unfold UseToken
  cases hf : st.tokens.find? (fun r => r.token == t) with
  | none => rfl
  | some row =>
    have hmem := List.mem_of_find?_eq_some hf
    have hp : row.token = t := by
      have := List.find?_some hf
      simpa using this
    have hused : row.used = true := hc.2 row hmem hp
    exact if_pos hused

theorem useToken_ok_state {t now : Nat} {st : DBState} {d : String} {st1 : DBState}
    (hg : goodCounter st) (h : UseToken t now st = Except.ok (d, st1)) :
    consumed t st1 ∧ goodCounter st1 := by
  obtain ⟨row, hfind, hused, hexp, hd, hst⟩ := useToken_ok_inv h
  subst hst
  have hp : row.token = t := by
    have := List.find?_some hfind
    simpa using this
  constructor
  · refine ⟨?_, ?_⟩
    · show t < st.nextToken
      have hmem := List.mem_of_find?_eq_some hfind
      have := hg row hmem
      omega
    · intro r hr hrt
      obtain ⟨x, hx, hfx⟩ := List.mem_map.1 hr
      by_cases hxt : (x.token == t) = true
      · rw [← hfx, if_pos hxt]
      · rw [← hfx, if_neg hxt] at hrt ⊢
        exact absurd (by simpa using hrt) (by simpa using hxt)
  · exact goodCounter_mark t st hg

/-- C2: once `UseToken` has succeeded for a token, every later `UseToken`
call with the same token fails with InvalidToken, whatever sequence of
store operations has run in between — a consumed token is never redeemable
again. -/
theorem useToken_single_use (st : DBState) (t now : Nat) (d : String) (st1 : DBState)
    (hg : goodCounter st) (h : UseToken t now st = Except.ok (d, st1))
    (ops : List Op) (now2 : Nat) :
    UseToken t now2 (applyOps ops st1) = Except.error DBError.invalidToken := by
  obtain ⟨hc, -⟩ := useToken_ok_state hg h
  exact consumed_useToken_fails t now2 _ (consumed_applyOps ops st1 t hc)

/-- Witness for C2: a freshly issued token is redeemed once; after a
further scan insertion, redeeming it again fails with InvalidToken. -/
theorem useToken_single_use_witness :
    UseToken 0 20
      (applyOps [Op.putScan ⟨"dummy.com", "x", 7⟩]
        ⟨[], [], [⟨0, "testing.com", 259200, true⟩], 1⟩) =
      Except.error DBError.invalidToken :=
  useToken_single_use ⟨[], [], [⟨0, "testing.com", 259200, false⟩], 1⟩ 0 10
    "testing.com" ⟨[], [], [⟨0, "testing.com", 259200, true⟩], 1⟩
    (by decide) rfl [Op.putScan ⟨"dummy.com", "x", 7⟩] 20

theorem useToken_not_found (t now : Nat) (st : DBState)
    (h : st.tokens.find? (fun r => r.token == t) = none) :
    UseToken t now st = Except.error DBError.invalidToken := by
  unfold UseToken
  rw [h]

theorem useToken_found_fresh (t now : Nat) (st : DBState) (row : TokenData)
    (h : st.tokens.find? (fun r => r.token == t) = some row)
    (hused : row.used = false) (hexp : ¬ row.expiration < now) :
    UseToken t now st =
      Except.ok (row.domain, { st with tokens := markUsed t st.tokens }) := by
  unfold UseToken
  rw [h]
  have hu : ¬ row.used = true := by simp [hused]
  show (if row.used = true then Except.error DBError.invalidToken
    else if row.expiration < now then Except.error DBError.invalidToken
    else Except.ok (row.domain, { st with tokens := markUsed t st.tokens })) = _
  rw [if_neg hu, if_neg hexp]

/-- C3: issuing two tokens for the same domain in sequence supersedes the
first: redeeming the first token fails with InvalidToken although it was
never used, while redeeming the second (before it expires) succeeds and
returns the domain. -/
theorem putToken_supersedes (st : DBState) (dom : String) (now1 now2 now3 : Nat)
    (t1 t2 : TokenData) (st1 st2 : DBState)
    (hg : goodCounter st)
    (h1 : PutToken dom now1 st = Except.ok (t1, st1))
    (h2 : PutToken dom now2 st1 = Except.ok (t2, st2)) :
    UseToken t1.token now3 st2 = Except.error DBError.invalidToken ∧
    (now3 ≤ t2.expiration →
      ∃ st3, UseToken t2.token now3 st2 = Except.ok (dom, st3)) := by
  simp only [PutToken, Except.ok.injEq, Prod.mk.injEq] at h1 h2
  obtain ⟨ht1, hs1⟩ := h1
  subst ht1
  subst hs1
  obtain ⟨ht2, hs2⟩ := h2
  subst ht2
  subst hs2
  have hfind1 : ∀ x ∈ (upsertToken dom
      ⟨({ st with
            tokens := upsertToken dom
              ⟨st.nextToken, dom, now1 + tokenValidity, false⟩ st.tokens,
            nextToken := st.nextToken + 1 } : DBState).nextToken, dom,
          now2 + tokenValidity, false⟩
      (upsertToken dom ⟨st.nextToken, dom, now1 + tokenValidity, false⟩ st.tokens)),
      ¬ (x.token == st.nextToken) = true := by
    intro x hx
    rcases mem_upsertToken hx with rfl | ⟨hx1, hxd⟩
    · simp only [TokenData.mk.injEq]
      simp
    · rcases mem_upsertToken hx1 with rfl | ⟨hx2, hxd2⟩
      · simp at hxd
      · have := hg x hx2
        simp only [beq_iff_eq]
        omega
  constructor
  · exact useToken_not_found _ now3 _ (List.find?_eq_none.2 hfind1)
  · intro hle
    have hfind2 : (upsertToken dom
        ⟨({ st with
              tokens := upsertToken dom
                ⟨st.nextToken, dom, now1 + tokenValidity, false⟩ st.tokens,
              nextToken := st.nextToken + 1 } : DBState).nextToken, dom,
            now2 + tokenValidity, false⟩
        (upsertToken dom ⟨st.nextToken, dom, now1 + tokenValidity, false⟩ st.tokens)).find?
        (fun r => r.token ==
          (⟨({ st with
                tokens := upsertToken dom
                  ⟨st.nextToken, dom, now1 + tokenValidity, false⟩ st.tokens,
                nextToken := st.nextToken + 1 } : DBState).nextToken, dom,
              now2 + tokenValidity, false⟩ : TokenData).token) =
        some ⟨({ st with
              tokens := upsertToken dom
                ⟨st.nextToken, dom, now1 + tokenValidity, false⟩ st.tokens,
              nextToken := st.nextToken + 1 } : DBState).nextToken, dom,
            now2 + tokenValidity, false⟩ := by
      refine find?_eq_some_unique _ _ _ (self_mem_upsertToken _ _ _) (by simp) ?_
      intro x hx hbeq
      rcases mem_upsertToken hx with rfl | ⟨hx1, hxd⟩
      · rfl
      · rcases mem_upsertToken hx1 with rfl | ⟨hx2, hxd2⟩
        · simp at hxd
        · have := hg x hx2
          simp only [beq_iff_eq] at hbeq
          omega
    exact ⟨_, useToken_found_fresh _ now3 _ _ hfind2 rfl (Nat.not_lt.2 hle)⟩

/-- Witness for C3: two tokens issued for "testing.com" from the fresh
store, as in `TestPutTokenTwice`; the first is then unredeemable while the
second redeems to "testing.com". -/
theorem putToken_supersedes_witness :
    UseToken 0 5 ⟨[], [], [⟨1, "testing.com", 259200, false⟩], 2⟩ =
      Except.error DBError.invalidToken ∧
    ∃ st3, UseToken 1 5 ⟨[], [], [⟨1, "testing.com", 259200, false⟩], 2⟩ =
      Except.ok ("testing.com", st3) :=
  ⟨(putToken_supersedes initState "testing.com" 0 0 5 _ _ _ _
      (by decide) rfl rfl).1,
    (putToken_supersedes initState "testing.com" 0 0 5 _ _ _ _
      (by decide) rfl rfl).2 (by decide)⟩

/-- Counterexample for C7: in the fresh store no domain is registered —
`GetDomain "testing.com"` fails with NotFound — and yet
`PutToken "testing.com"` succeeds and returns a token, exactly as
`TestPutUseToken` demands; it does not fail with a NotFound/validation
error. -/
theorem putToken_unregistered_cx :
    GetDomain "testing.com" initState = Except.error DBError.notFound ∧
    PutToken "testing.com" 0 initState =
      Except.ok (⟨0, "testing.com", tokenValidity, false⟩,
        ⟨[], [], [⟨0, "testing.com", tokenValidity, false⟩], 1⟩) := by
  constructor
  · rfl
  · rfl

/-- C7 (amended): `PutToken` succeeds and returns a fresh unused token for
its domain whether or not the domain has been registered; token issuance is
not restricted to known domains. -/
theorem putToken_no_registration_check (d : String) (now : Nat) (st : DBState) :
    ∃ tok st1, PutToken d now st = Except.ok (tok, st1) ∧
      tok.domain = d ∧ tok.used = false :=
  ⟨_, _, rfl, rfl, rfl⟩

end StarttlsScanner
